import Mathlib

/-!
# Verification of the scheduling-agent plan/conflict/negotiation/execution pipeline

Shallow embedding of the deterministic core of the repository:

* `models.py` — the data model (ScheduleEvent, MutationPlan, ConflictReport, …).
* `app_agents/conflict_agent.py` — first-occurrence computation, the half-open
  overlap test and the deterministic conflict detector `run_conflict_agent`.
* `app_agents/negotiation_agent.py` — candidate-slot generation
  (`_next_occurrence`, `_candidate_slots`), the free-slot filter
  (`_filter_free_slots`) and `apply_resolutions_tool`.
* `app_agents/executor_agent.py` — the executor loop (realized in the source
  by an LLM agent; modelled from the spec where noted).

Modelling conventions: all datetimes in the source live in one fixed timezone
and Python's datetime arithmetic is wall-clock arithmetic, so an instant is an
`Int` counting minutes since the epoch midnight, and a calendar date is an
`Int` counting days since 1970-01-01 (so Python's `date.weekday()`, Monday = 0,
is `(d + 3) % 7`; 1970-01-01 was a Thursday).  `HH:MM` wall-clock strings are
embedded as an hour/minute pair (the two are in bijection for valid times).
Scores (Python floats holding exact whole numbers of seconds) are embedded as
`Int`.  The external calendar collaborator (event fetch / freebusy) and the
standard library's `datetime.fromisoformat` are parameters of the functions
that consult them.
-/

namespace SchedulingAgent

/-- `models.py` `DayOfWeek(str, Enum)` with values `"mon"`..`"sun"`. -/
inductive DayOfWeek
  | mon | tue | wed | thu | fri | sat | sun
deriving DecidableEq, Repr

/-- `models.py` `ScheduleEvent.recurrence` literal. -/
inductive Recurrence
  | weekly | once | unknown
deriving DecidableEq, Repr

/-- `models.py` `ScheduleEvent.source` literal. -/
inductive SourceKind
  | pdf | image | manual
deriving DecidableEq, Repr

/-- An `HH:MM` wall-clock string, embedded as its hour/minute components. -/
structure HM where
  hour : Nat
  minute : Nat
deriving DecidableEq, Repr

/-- `models.py` `ScheduleEvent`. -/
structure ScheduleEvent where
  title : String
  day_of_week : DayOfWeek
  start_time : HM
  end_time : HM
  location : Option String := none
  recurrence : Recurrence := .weekly
  notes : Option String := none
  source : SourceKind := .manual
  source_hint : Option String := none
deriving DecidableEq, Repr

/-- A `YYYY-MM-DD` date as parsed by `datetime.fromisoformat`. -/
structure CivilDate where
  year : Nat
  month : Nat
  day : Nat
deriving DecidableEq, Repr

/-- `models.py` `SemesterWindow`. -/
structure SemesterWindow where
  semester_start : CivilDate
  semester_end : CivilDate
  timezone : String := "Europe/Brussels"
deriving DecidableEq, Repr

/-- `models.py` `MutationOp = Union[CreateRecurringOp, UpdateEventOp, DeleteEventOp]`,
as a closed sum.  An `update` patch dict is embedded as a key/value list. -/
inductive MutationOp
  | create_recurring (event : ScheduleEvent)
      (first_start_iso : String) (first_end_iso : String) (rrule : String)
  | update (google_event_id : String) (patch : List (String × String))
  | delete (google_event_id : String)
deriving DecidableEq, Repr

/-- `models.py` `MutationPlan`. -/
structure MutationPlan where
  operations : List MutationOp
  preview : String
  requires_confirmation : Bool := true
deriving DecidableEq, Repr

/-- `models.py` `Conflict.type` literal. -/
inductive ConflictType
  | overlap | duplicate | outside_semester | ambiguous
deriving DecidableEq, Repr

/-- `models.py` `Conflict`. -/
structure Conflict where
  type : ConflictType
  summary : String
  affected : List String := []
  suggestions : List String := []
deriving DecidableEq, Repr

/-- `models.py` `ConflictReport`. -/
structure ConflictReport where
  conflicts : List Conflict
  blocking : Bool := true
deriving DecidableEq, Repr

/-- `models.py` `AlternativeSlot`; the ISO instants are embedded as minute
instants and the float score (an exact whole number of seconds) as an `Int`. -/
structure AlternativeSlot where
  start_iso : Int
  end_iso : Int
  score : Option Int := none
deriving DecidableEq, Repr

/-- `models.py` `ResolutionOption`; `operation_index` is a Python `int` and may
be negative, hence `Int`.  The suggested instants stay as the raw ISO strings
the source hands to `datetime.fromisoformat`. -/
structure ResolutionOption where
  operation_index : Int
  suggested_start_iso : String
  suggested_end_iso : String
  note : Option String := none
deriving DecidableEq, Repr

/-- `models.py` `NegotiationOutcome`. -/
structure NegotiationOutcome where
  updated_plan : MutationPlan
  applied_resolutions : List ResolutionOption := []
  unresolved_conflicts : List String := []
deriving DecidableEq, Repr

/-- `models.py` `ExecutionResult.status` literal. -/
inductive ExecStatus
  | success | failed | skipped
deriving DecidableEq, Repr

/-- `models.py` `ExecutionResult`. -/
structure ExecutionResult where
  op_index : Nat
  op_type : String
  status : ExecStatus
  message : String
  google_event_id : Option String := none
deriving DecidableEq, Repr

/-- `models.py` `ExecutionReport`. -/
structure ExecutionReport where
  plan_preview : String
  total_ops : Nat
  executed_ops : Nat
  failed_ops : Nat
  results : List ExecutionResult
deriving DecidableEq, Repr

/-! ## Calendar dates

`daysFromCivil` is the standard civil-from-days algorithm computing, for a
Gregorian date, the number of days since 0000-03-01 (valid for `year ≥ 1`);
`dateToDay` shifts it to the 1970-01-01 epoch used throughout the model.  It
embeds `datetime.fromisoformat` on `YYYY-MM-DD` strings. -/

def daysFromCivil (date : CivilDate) : Nat :=
  let y := if date.month ≤ 2 then date.year - 1 else date.year
  let era := y / 400
  let yoe := y - era * 400
  let mp := (date.month + 9) % 12
  let doy := (153 * mp + 2) / 5 + date.day - 1
  let doe := yoe * 365 + yoe / 4 - yoe / 100 + doy
  era * 146097 + doe

/-- Days since 1970-01-01 of a civil date (1970-01-01 itself is day `0`). -/
def dateToDay (date : CivilDate) : Int :=
  (daysFromCivil date : Int) - 719468

/-- Python's `datetime.weekday()`: Monday = 0 … Sunday = 6.  Day 0
(1970-01-01) was a Thursday. -/
def pyWeekday (day : Int) : Int :=
  (day + 3) % 7

/-- The instant (minutes since the epoch midnight) of clock time `hm` on
calendar day `day`: Python's `midnight_of_day.replace(hour=h, minute=m)`. -/
def atTime (day : Int) (hm : HM) : Int :=
  day * 1440 + (hm.hour : Int) * 60 + (hm.minute : Int)

/-! ## `app_agents/conflict_agent.py` -/

/-- The `dow_map` dictionary of `conflict_agent._first_occurrence_date`
applied to the (always present) enum value key. -/
def dow_map : DayOfWeek → Int
  | .mon => 0 | .tue => 1 | .wed => 2 | .thu => 3 | .fri => 4 | .sat => 5 | .sun => 6

/-- `conflict_agent._first_occurrence_date`: first date on/after
`semester_start` whose weekday is `target_dow`. -/
def _first_occurrence_date (semester_start : Int) (target_dow : DayOfWeek) : Int :=
  let target := dow_map target_dow
  let start_dow := pyWeekday semester_start
  let delta_days := (target - start_dow) % 7
  semester_start + delta_days

/-- `conflict_agent._events_overlap`: half-open interval overlap test. -/
def _events_overlap (a_start a_end b_start b_end : Int) : Bool :=
  max a_start b_start < min a_end b_end

/-- One element of the `planned` list built by
`conflict_agent._planned_occurrences` (a Python dict with keys
`index/title/start/end/event`; `end` is a Lean keyword, embedded as `stop`). -/
structure PlannedOcc where
  index : Nat
  title : String
  start : Int
  stop : Int
  event : ScheduleEvent
deriving DecidableEq, Repr

/-- The planned-occurrence dict built for one `create_recurring` op in
`conflict_agent._planned_occurrences`. -/
def mkPlannedOcc (semester_start_date : Int) (idx : Nat) (event : ScheduleEvent) : PlannedOcc :=
  let start_day := _first_occurrence_date semester_start_date event.day_of_week
  { index := idx, title := event.title,
    start := atTime start_day event.start_time,
    stop := atTime start_day event.end_time,
    event := event }

/-- The `for idx, op in enumerate(plan.operations)` loop body of
`conflict_agent._planned_occurrences`, with `idx` carried explicitly. -/
def plannedAux (semester_start_date : Int) : Nat → List MutationOp → List PlannedOcc
  | _, [] => []
  | idx, op :: rest =>
    match op with
    | .create_recurring event _ _ _ =>
      mkPlannedOcc semester_start_date idx event ::
        plannedAux semester_start_date (idx + 1) rest
    | _ => plannedAux semester_start_date (idx + 1) rest

/-- `conflict_agent._planned_occurrences`. -/
def _planned_occurrences (plan : MutationPlan) (semester : SemesterWindow) : List PlannedOcc :=
  let semester_start_date := dateToDay semester.semester_start
  plannedAux semester_start_date 0 plan.operations

/-- The Conflict built for an overlapping planned/planned pair in
`run_conflict_agent` (the f-string quotes around the titles are elided). -/
def mkPairConflict (a b : PlannedOcc) : Conflict :=
  { type := .overlap,
    summary := "Planned " ++ a.title ++ " overlaps with " ++ b.title,
    affected := [a.title, b.title],
    suggestions := ["Shift one of the events to avoid overlap."] }

/-- An existing calendar event as normalized by
`conflict_agent._existing_events_between` (`end` embedded as `stop`). -/
structure ExistingEvent where
  summary : String
  start : Int
  stop : Int
deriving DecidableEq, Repr

/-- The Conflict built for a planned/existing overlap in `run_conflict_agent`. -/
def mkExistingConflict (p : PlannedOcc) (ev : ExistingEvent) : Conflict :=
  { type := .overlap,
    summary := "Planned " ++ p.title ++ " overlaps with " ++ ev.summary,
    affected := [p.title, ev.summary],
    suggestions := ["Adjust the time or reschedule around existing commitments."] }

/-- The planned-vs-planned double loop of `run_conflict_agent`
(`for i in range(len(planned)): for j in range(i+1, len(planned)): …`). -/
def pairwiseLoop : List PlannedOcc → List Conflict
  | [] => []
  | a :: rest =>
    ((rest.filter fun b => _events_overlap a.start a.stop b.start b.stop).map
      fun b => mkPairConflict a b) ++ pairwiseLoop rest

/-- The planned-vs-existing loop of `run_conflict_agent`; `fetchExisting`
abstracts `_existing_events_between` (the external calendar read) as a
function of the queried window. -/
def existingLoop (fetchExisting : Int → Int → List ExistingEvent)
    (planned : List PlannedOcc) : List Conflict :=
  planned.flatMap fun p =>
    ((fetchExisting p.start p.stop).filter fun ev =>
        _events_overlap p.start p.stop ev.start ev.stop).map
      fun ev => mkExistingConflict p ev

/-- `conflict_agent.run_conflict_agent`, with the external calendar service
abstracted into `fetchExisting`. -/
def run_conflict_agent (plan : MutationPlan) (semester : SemesterWindow)
    (fetchExisting : Int → Int → List ExistingEvent) : ConflictReport :=
  let planned := _planned_occurrences plan semester
  let conflicts := pairwiseLoop planned ++ existingLoop fetchExisting planned
  { conflicts := conflicts, blocking := !conflicts.isEmpty }

/-! ## `app_agents/negotiation_agent.py` -/

/-- Python's `str()` of a `DayOfWeek(str, Enum)` member.  The class mixes
`str` into `Enum` (it is not a `StrEnum`), so `str()` yields the qualified
member name `"DayOfWeek.wed"`, not the value `"wed"`. -/
def strOfDayOfWeek : DayOfWeek → String
  | .mon => "DayOfWeek.mon" | .tue => "DayOfWeek.tue" | .wed => "DayOfWeek.wed"
  | .thu => "DayOfWeek.thu" | .fri => "DayOfWeek.fri" | .sat => "DayOfWeek.sat"
  | .sun => "DayOfWeek.sun"

/-- The `dow_map.get(key, 0)` lookup of `negotiation_agent._next_occurrence`,
on an arbitrary string key with default `0`. -/
def dow_map_get (key : String) : Int :=
  if key = "mon" then 0
  else if key = "tue" then 1
  else if key = "wed" then 2
  else if key = "thu" then 3
  else if key = "fri" then 4
  else if key = "sat" then 5
  else if key = "sun" then 6
  else 0

/-- `negotiation_agent._next_occurrence`; `today` is the midnight-normalized
current date (`datetime.now(...)` with the clock fields zeroed), a parameter
of the model.  The result is a calendar day. -/
def _next_occurrence (today : Int) (event : ScheduleEvent) : Int :=
  let target := dow_map_get (strOfDayOfWeek event.day_of_week)
  let delta := (target - pyWeekday today) % 7
  today + delta

/-- The inner `range(0, 12 * 60, step_minutes)` of `_candidate_slots`. -/
def stepRange (step_minutes : Nat) : List Nat :=
  (List.range ((12 * 60 + step_minutes - 1) / step_minutes)).map fun k => k * step_minutes

/-- `negotiation_agent._candidate_slots`.  A candidate is a `(start, end)`
pair of minute instants.  The source's re-`replace` of the hour/minute on each
shifted day is the identity here because shifting by whole days preserves the
wall-clock time. -/
def _candidate_slots (today : Int) (event : ScheduleEvent)
    (days_search_range : Nat := 7) (step_minutes : Nat := 30) : List (Int × Int) :=
  let base_date := _next_occurrence today event
  let base_start := atTime base_date event.start_time
  let base_end := atTime base_date event.end_time
  let duration := base_end - base_start
  (List.range (2 * days_search_range + 1)).flatMap fun di =>
    let delta_days : Int := (di : Int) - (days_search_range : Int)
    let day := base_start + delta_days * 1440
    (stepRange step_minutes).map fun step =>
      let start := day + (step : Int)
      (start, start + duration)

/-- The overlap check inside `negotiation_agent._filter_free_slots.is_free`
(`max(start, b_start) < min(end, b_end)`). -/
def negOverlapCheck (start stop b_start b_end : Int) : Bool :=
  max start b_start < min stop b_end

/-- `is_free` of `_filter_free_slots`: no busy block overlaps the slot. -/
def is_free (busy : List (Int × Int)) (start stop : Int) : Bool :=
  busy.all fun b => !negOverlapCheck start stop b.1 b.2

/-- The sort key `lambda s: s.score or 0` (Python `or`: `None` and `0.0` are
both falsy and map to `0`, which coincides with `getD 0`). -/
def scoreKey (s : AlternativeSlot) : Int :=
  s.score.getD 0

/-- Stable insertion into a descending-by-score list: a later element goes
after every already-placed element of greater *or equal* key. -/
def insertByScoreDesc (a : AlternativeSlot) : List AlternativeSlot → List AlternativeSlot
  | [] => [a]
  | b :: rest =>
    if scoreKey a ≤ scoreKey b then b :: insertByScoreDesc a rest else a :: b :: rest

/-- Python's `sorted(..., key=lambda s: s.score or 0, reverse=True)`:
a stable sort, descending by key, embedded as stable insertion sort (Python
guarantees exactly stability plus the key order, which determine the result
uniquely). -/
def pySortedDesc (l : List AlternativeSlot) : List AlternativeSlot :=
  l.foldl (fun acc a => insertByScoreDesc a acc) []

/-- `negotiation_agent._filter_free_slots`, with the freebusy response for the
queried window abstracted into the `busy` block list (minute instants).  The
score is `-abs(start - candidates[0].start)` in seconds, and the result is
stably sorted by score, descending (Python `sorted(..., reverse=True)`). -/
def _filter_free_slots (candidates : List (Int × Int)) (busy : List (Int × Int)) :
    List AlternativeSlot :=
  match candidates with
  | [] => []
  | c0 :: _ =>
    let free_slots := (candidates.filter fun c => is_free busy c.1 c.2).map fun c =>
      let delta : Int := (c.1 - c0.1).natAbs * 60
      { start_iso := c.1, end_iso := c.2, score := some (-delta) }
    pySortedDesc free_slots

/-- A parsed `datetime.fromisoformat` result, to the precision the source
uses: its calendar day and wall-clock hour/minute. -/
structure PyDateTime where
  day : Int
  hour : Nat
  minute : Nat
deriving DecidableEq, Repr

/-- `start_dt.strftime("%H:%M")` as an `HM` value. -/
def strftimeHM (dt : PyDateTime) : HM :=
  { hour := dt.hour, minute := dt.minute }

/-- The body of the `for res in resolutions` loop of
`negotiation_agent.apply_resolutions_tool`, acting on the running
`(operations, applied)` state.  `fromiso` abstracts the standard library's
fallible `datetime.fromisoformat` (`none` = raises), whose exception the
source catches and turns into a skip. -/
def applyStep (fromiso : String → Option PyDateTime)
    (st : List MutationOp × List ResolutionOption) (res : ResolutionOption) :
    List MutationOp × List ResolutionOption :=
  let idx := res.operation_index
  if idx < 0 ∨ (st.1.length : Int) ≤ idx then st
  else
    match st.1[idx.toNat]? with
    | some (.create_recurring ev fs fe rr) =>
      match fromiso res.suggested_start_iso, fromiso res.suggested_end_iso with
      | some start_dt, some end_dt =>
        (st.1.set idx.toNat
          (.create_recurring
            { ev with start_time := strftimeHM start_dt, end_time := strftimeHM end_dt }
            fs fe rr),
          st.2 ++ [res])
      | _, _ => st
    | _ => st

/-- `negotiation_agent.apply_resolutions_tool` on already-validated inputs
(the JSON decoding of its wrapper is outside the model).  The source mutates
the event objects inside the plan in place and returns the same plan object;
the model threads the operations list through `applyStep` instead. -/
def apply_resolutions_tool (fromiso : String → Option PyDateTime)
    (new_plan : MutationPlan) (resolutions : List ResolutionOption) : NegotiationOutcome :=
  let st := resolutions.foldl (applyStep fromiso) (new_plan.operations, [])
  { updated_plan :=
      { operations := st.1, preview := new_plan.preview,
        requires_confirmation := new_plan.requires_confirmation },
    applied_resolutions := st.2,
    unresolved_conflicts := [] }

/-- An operation with any clock times erased: the projection of a plan that
`apply_resolutions_tool` never changes (everything except the targeted event's
`start_time`/`end_time`). -/
def eraseTimes : MutationOp → MutationOp
  | .create_recurring ev fs fe rr =>
    .create_recurring { ev with start_time := ⟨0, 0⟩, end_time := ⟨0, 0⟩ } fs fe rr
  | op => op

/-- An event with only its clock times rewritten, to the wall-clock `HH:MM`
of the two parsed instants (the assignments on lines 165–166 of
`negotiation_agent.py`). -/
def updTimes (ev : ScheduleEvent) (start_dt end_dt : PyDateTime) : ScheduleEvent :=
  { ev with start_time := strftimeHM start_dt, end_time := strftimeHM end_dt }

/-- Whether index `idx` addresses a `create_recurring` operation of `ops`. -/
def isCreateAt (ops : List MutationOp) (idx : Int) : Bool :=
  match ops[idx.toNat]? with
  | some (.create_recurring _ _ _ _) => true
  | _ => false

/-- The conditions under which `apply_resolutions_tool` accepts a resolution:
index in range, addressing a `create_recurring` op, and both suggested
instants parsable. -/
def validResolution (fromiso : String → Option PyDateTime) (ops : List MutationOp)
    (res : ResolutionOption) : Bool :=
  decide (0 ≤ res.operation_index)
    && decide (res.operation_index < (ops.length : Int))
    && isCreateAt ops res.operation_index
    && (fromiso res.suggested_start_iso).isSome
    && (fromiso res.suggested_end_iso).isSome

/-! ## `app_agents/executor_agent.py`

Modelled from the spec: in the source the executor loop is carried out by the
external generation service following the natural-language instructions of
`executor_agent` (the deterministic per-operation loop itself is not code in
`src/`); the model below follows spec section 4.4 and those instructions,
with the per-operation calendar mutation abstracted into `dispatch`. -/

/-- Outcome of dispatching one operation to the calendar collaborator:
either a success (with the remote event id when one was created) or a
per-operation failure. -/
inductive DispatchResult
  | success (google_event_id : Option String) (message : String)
  | failed (message : String)
deriving DecidableEq, Repr

/-- The `op` tag string of an operation. -/
def opTag : MutationOp → String
  | .create_recurring .. => "create_recurring"
  | .update .. => "update"
  | .delete .. => "delete"

/-- The ExecutionResult recorded for operation `i`. -/
def mkExecResult (i : Nat) (op : MutationOp) : DispatchResult → ExecutionResult
  | .success gid msg =>
    { op_index := i, op_type := opTag op, status := .success, message := msg,
      google_event_id := gid }
  | .failed msg =>
    { op_index := i, op_type := opTag op, status := .failed, message := msg,
      google_event_id := none }

/-- The in-order walk over the operations, indices carried explicitly. -/
def executorLoop (dispatch : Nat → MutationOp → DispatchResult) :
    Nat → List MutationOp → List ExecutionResult
  | _, [] => []
  | i, op :: rest =>
    mkExecResult i op (dispatch i op) :: executorLoop dispatch (i + 1) rest

/-- Modelled from the spec: `run_executor_agent` — apply every operation in
order, record one ExecutionResult per operation, count successes and
failures; a failure never aborts the batch. -/
def run_executor_agent (dispatch : Nat → MutationOp → DispatchResult)
    (plan : MutationPlan) : ExecutionReport :=
  let results := executorLoop dispatch 0 plan.operations
  { plan_preview := plan.preview,
    total_ops := plan.operations.length,
    executed_ops := (results.filter fun r => r.status = .success).length,
    failed_ops := (results.filter fun r => r.status = .failed).length,
    results := results }

/-! ## Concrete test fixtures

Concrete inputs used to instantiate theorems: the spec's worked examples
(section 8 of the spec) and small inputs exhibiting the two code bugs.
Day `20094` is 2025-01-06, a Monday; day `20096` is 2025-01-08, a Wednesday. -/

/-- The spec's `wed 09:00–10:00` example event. -/
def wedClass : ScheduleEvent :=
  { title := "Algebra", day_of_week := .wed, start_time := ⟨9, 0⟩, end_time := ⟨10, 0⟩ }

/-- The spec's `wed 09:30–10:30` example event. -/
def wedClass2 : ScheduleEvent :=
  { title := "Physics", day_of_week := .wed, start_time := ⟨9, 30⟩, end_time := ⟨10, 30⟩ }

/-- A third overlapping Wednesday event. -/
def wedClass3 : ScheduleEvent :=
  { title := "Chemistry", day_of_week := .wed, start_time := ⟨9, 45⟩, end_time := ⟨10, 45⟩ }

/-- A Monday event (its natural occurrence agrees with the buggy Monday
anchor of `_next_occurrence`, isolating the scoring bug from the anchor bug). -/
def monClass : ScheduleEvent :=
  { title := "Calculus", day_of_week := .mon, start_time := ⟨9, 0⟩, end_time := ⟨10, 0⟩ }

/-- The spec's semester window: 2025-01-06 (a Monday) to 2025-05-01. -/
def exampleSemester : SemesterWindow :=
  { semester_start := ⟨2025, 1, 6⟩, semester_end := ⟨2025, 5, 1⟩ }

/-- The spec's Conflict Detector example plan: two overlapping planned events. -/
def examplePlan2 : MutationPlan :=
  { operations :=
      [.create_recurring wedClass "2025-01-08T09:00" "2025-01-08T10:00"
        "RRULE:FREQ=WEEKLY;UNTIL=20250501T235959Z",
       .create_recurring wedClass2 "2025-01-08T09:30" "2025-01-08T10:30"
        "RRULE:FREQ=WEEKLY;UNTIL=20250501T235959Z"],
    preview := "Algebra wed 09:00-10:00; Physics wed 09:30-10:30" }

/-- Three pairwise-overlapping planned events (conflicts must not be merged). -/
def examplePlan3 : MutationPlan :=
  { operations :=
      [.create_recurring wedClass "s1" "e1" "r1",
       .create_recurring wedClass2 "s2" "e2" "r2",
       .create_recurring wedClass3 "s3" "e3" "r3"],
    preview := "three overlapping classes" }

/-- A plan mixing a create with an update and a delete, for resolution tests. -/
def examplePlanMixed : MutationPlan :=
  { operations :=
      [.update "gid-7" [("summary", "Renamed")],
       .create_recurring wedClass "2025-01-08T09:00" "2025-01-08T10:00" "RRULE",
       .delete "gid-9"],
    preview := "mixed plan" }

/-- A concrete stand-in for `datetime.fromisoformat`, defined on the two ISO
strings the fixtures use and failing elsewhere. -/
def fromisoTable (s : String) : Option PyDateTime :=
  if s = "2025-01-09T11:00:00" then some ⟨20097, 11, 0⟩
  else if s = "2025-01-09T12:00:00" then some ⟨20097, 12, 0⟩
  else none

/-- A resolution addressing the create op of `examplePlanMixed` with parsable
instants on a different calendar day (Thursday 2025-01-09). -/
def resolutionOk : ResolutionOption :=
  { operation_index := 1, suggested_start_iso := "2025-01-09T11:00:00",
    suggested_end_iso := "2025-01-09T12:00:00" }

/-- A resolution whose `operation_index` is out of range. -/
def resolutionOutOfRange : ResolutionOption :=
  { operation_index := 5, suggested_start_iso := "2025-01-09T11:00:00",
    suggested_end_iso := "2025-01-09T12:00:00" }

/-- A resolution addressing the (non-create) update op. -/
def resolutionWrongKind : ResolutionOption :=
  { operation_index := 0, suggested_start_iso := "2025-01-09T11:00:00",
    suggested_end_iso := "2025-01-09T12:00:00" }

/-- A resolution whose suggested end instant does not parse. -/
def resolutionUnparsable : ResolutionOption :=
  { operation_index := 1, suggested_start_iso := "2025-01-09T11:00:00",
    suggested_end_iso := "not-a-datetime" }

/-- The spec's Executor example: a 3-operation plan. -/
def execExamplePlan : MutationPlan :=
  { operations :=
      [.create_recurring monClass "s" "e" "r",
       .update "gid-1" [("summary", "Renamed")],
       .delete "gid-2"],
    preview := "three ops" }

/-- A dispatch where operation #2 (index 1) raises a remote error and the
others succeed. -/
def execExampleDispatch : Nat → MutationOp → DispatchResult :=
  fun i _ => if i = 1 then .failed "remote error" else .success (some "gid-new") "created"

/-- All unordered pairs of a list, each exactly once, in the order the
detector's double loop visits them (`(l[i], l[j])` for `i < j`). -/
def allPairs {α : Type} : List α → List (α × α)
  | [] => []
  | a :: rest => (rest.map fun b => (a, b)) ++ allPairs rest

/-! ## Theorems -/

theorem allPairs_length {α : Type} (l : List α) :
    (allPairs l).length = l.length.choose 2 := by
  induction l with
  | nil => rfl
  | cons a rest ih =>
    simp only [allPairs, List.length_append, List.length_map, ih, List.length_cons]
    rw [Nat.choose_succ_succ, Nat.choose_one_right]

theorem pairwiseLoop_eq_filter (planned : List PlannedOcc) :
    pairwiseLoop planned =
      ((allPairs planned).filter fun p =>
          _events_overlap p.1.start p.1.stop p.2.start p.2.stop).map
        fun p => mkPairConflict p.1 p.2 := by
  induction planned with
  | nil => rfl
  | cons a rest ih =>
    simp only [pairwiseLoop, allPairs, List.filter_append, List.map_append, ih]
    congr 1
    rw [List.filter_map, List.map_map]
    rfl

theorem set_of_getElem?_eq {α : Type} :
    ∀ (l : List α) (i : Nat) (a : α), l[i]? = some a → l.set i a = l
  | [], _, _, h => by simp at h
  | x :: xs, 0, a, h => by
    simp only [List.getElem?_cons_zero, Option.some.injEq] at h
    simp [h]
  | x :: xs, i + 1, a, h => by
    simp only [List.getElem?_cons_succ] at h
    show x :: xs.set i a = x :: xs
    rw [set_of_getElem?_eq xs i a h]

/-- The step of `apply_resolutions_tool` either applies the resolution
(in-range index, `create_recurring` op, both instants parsable), rewriting
exactly the targeted operation and recording the resolution, or leaves the
state untouched. -/
theorem applyStep_applies (fromiso : String → Option PyDateTime)
    (st : List MutationOp × List ResolutionOption) (res : ResolutionOption)
    (idx : Nat) (ev : ScheduleEvent) (fs fe rr : String) (start_dt end_dt : PyDateTime)
    (hidx : res.operation_index = (idx : Int))
    (hget : st.1[idx]? = some (.create_recurring ev fs fe rr))
    (hs : fromiso res.suggested_start_iso = some start_dt)
    (he : fromiso res.suggested_end_iso = some end_dt) :
    applyStep fromiso st res =
      (st.1.set idx (.create_recurring (updTimes ev start_dt end_dt) fs fe rr),
       st.2 ++ [res]) := by
  have hlt : idx < st.1.length := (List.getElem?_eq_some.mp hget).1
  have hcond : ¬(res.operation_index < 0 ∨ (st.1.length : Int) ≤ res.operation_index) := by
    rw [hidx]; omega
  have htoNat : res.operation_index.toNat = idx := by rw [hidx]; exact Int.toNat_natCast idx
  simp only [applyStep, hcond, if_false, htoNat, hget, hs, he]
  rfl

theorem applyStep_cases (fromiso : String → Option PyDateTime)
    (st : List MutationOp × List ResolutionOption) (res : ResolutionOption) :
    applyStep fromiso st res = st ∨
    ∃ (idx : Nat) (ev : ScheduleEvent) (fs fe rr : String) (start_dt end_dt : PyDateTime),
      res.operation_index = (idx : Int)
      ∧ st.1[idx]? = some (.create_recurring ev fs fe rr)
      ∧ fromiso res.suggested_start_iso = some start_dt
      ∧ fromiso res.suggested_end_iso = some end_dt
      ∧ applyStep fromiso st res =
          (st.1.set idx (.create_recurring (updTimes ev start_dt end_dt) fs fe rr),
           st.2 ++ [res]) := by
  by_cases h1 : res.operation_index < 0 ∨ (st.1.length : Int) ≤ res.operation_index
  · left; simp [applyStep, h1]
  · have hnn : 0 ≤ res.operation_index := by omega
    have hidx : res.operation_index = (res.operation_index.toNat : Int) :=
      (Int.toNat_of_nonneg hnn).symm
    rcases hop : st.1[res.operation_index.toNat]? with _ | op
    · left; simp [applyStep, h1, hop]
    · cases op with
      | update gid patch => left; simp [applyStep, h1, hop]
      | delete gid => left; simp [applyStep, h1, hop]
      | create_recurring ev fs fe rr =>
        rcases hs : fromiso res.suggested_start_iso with _ | start_dt
        · left; simp [applyStep, h1, hop, hs]
        · rcases he : fromiso res.suggested_end_iso with _ | end_dt
          · left; simp [applyStep, h1, hop, hs, he]
          · right
            exact ⟨res.operation_index.toNat, ev, fs, fe, rr, start_dt, end_dt,
              hidx, hop, rfl, rfl,
              applyStep_applies fromiso st res _ ev fs fe rr start_dt end_dt hidx hop hs he⟩

/-- A resolution that gets applied by a step satisfies all the acceptance
conditions for the current operations list. -/
theorem applyStep_data_valid (fromiso : String → Option PyDateTime)
    (st : List MutationOp × List ResolutionOption) (res : ResolutionOption)
    (idx : Nat) (ev : ScheduleEvent) (fs fe rr : String) (start_dt end_dt : PyDateTime)
    (hidx : res.operation_index = (idx : Int))
    (hget : st.1[idx]? = some (.create_recurring ev fs fe rr))
    (hs : fromiso res.suggested_start_iso = some start_dt)
    (he : fromiso res.suggested_end_iso = some end_dt) :
    validResolution fromiso st.1 res = true := by
  have hlt : idx < st.1.length := (List.getElem?_eq_some.mp hget).1
  simp only [validResolution, Bool.and_eq_true, decide_eq_true_eq]
  refine ⟨⟨⟨⟨by rw [hidx]; omega, by rw [hidx]; exact_mod_cast hlt⟩, ?_⟩, ?_⟩, ?_⟩
  · unfold isCreateAt
    have h : res.operation_index.toNat = idx := by rw [hidx]; exact Int.toNat_natCast idx
    rw [h, hget]
  · rw [hs]; rfl
  · rw [he]; rfl

theorem applyStep_snd_mono (fromiso : String → Option PyDateTime)
    (st : List MutationOp × List ResolutionOption) (res : ResolutionOption)
    (r : ResolutionOption) (h : r ∈ st.2) : r ∈ (applyStep fromiso st res).2 := by
  rcases applyStep_cases fromiso st res with heq |
    ⟨idx, ev, fs, fe, rr, s, e, _, _, _, _, heq⟩ <;> rw [heq]
  · exact h
  · exact List.mem_append_left _ h

theorem applyStep_fst_eraseTimes (fromiso : String → Option PyDateTime)
    (st : List MutationOp × List ResolutionOption) (res : ResolutionOption) :
    ((applyStep fromiso st res).1).map eraseTimes = st.1.map eraseTimes := by
  rcases applyStep_cases fromiso st res with heq |
    ⟨idx, ev, fs, fe, rr, s, e, _, hget, _, _, heq⟩
  · rw [heq]
  · rw [heq]
    show (st.1.set idx _).map eraseTimes = st.1.map eraseTimes
    rw [List.map_set]
    have herase : eraseTimes (.create_recurring (updTimes ev s e) fs fe rr) =
        eraseTimes (.create_recurring ev fs fe rr) := rfl
    rw [herase]
    apply set_of_getElem?_eq
    rw [List.getElem?_map, hget]
    rfl

theorem applyLoop_fst_eraseTimes (fromiso : String → Option PyDateTime) :
    ∀ (rs : List ResolutionOption) (st : List MutationOp × List ResolutionOption),
      ((rs.foldl (applyStep fromiso) st).1).map eraseTimes = st.1.map eraseTimes := by
  intro rs
  induction rs with
  | nil => intro st; rfl
  | cons res rest ih =>
    intro st
    rw [List.foldl_cons, ih (applyStep fromiso st res), applyStep_fst_eraseTimes]

theorem applyLoop_snd_mono (fromiso : String → Option PyDateTime) :
    ∀ (rs : List ResolutionOption) (st : List MutationOp × List ResolutionOption)
      (r : ResolutionOption), r ∈ st.2 → r ∈ (rs.foldl (applyStep fromiso) st).2 := by
  intro rs
  induction rs with
  | nil => intro st r h; exact h
  | cons res rest ih =>
    intro st r h
    rw [List.foldl_cons]
    exact ih _ r (applyStep_snd_mono fromiso st res r h)

theorem isCreateAt_congr (ops ops' : List MutationOp)
    (h : ops.map eraseTimes = ops'.map eraseTimes) (idx : Int) :
    isCreateAt ops idx = isCreateAt ops' idx := by
  have hg : Option.map eraseTimes ops[idx.toNat]? = Option.map eraseTimes ops'[idx.toNat]? := by
    rw [← List.getElem?_map, ← List.getElem?_map, h]
  unfold isCreateAt
  rcases h1 : ops[idx.toNat]? with _ | op <;> rcases h2 : ops'[idx.toNat]? with _ | op'
  · rfl
  · rw [h1, h2] at hg; simp at hg
  · rw [h1, h2] at hg; simp at hg
  · rw [h1, h2] at hg
    simp only [Option.map_some'] at hg
    cases op <;> cases op' <;> simp [eraseTimes] at hg ⊢

theorem validResolution_congr (fromiso : String → Option PyDateTime)
    (ops ops' : List MutationOp) (h : ops.map eraseTimes = ops'.map eraseTimes)
    (res : ResolutionOption) :
    validResolution fromiso ops res = validResolution fromiso ops' res := by
  have hlen : ops.length = ops'.length := by
    have := congrArg List.length h
    simpa using this
  unfold validResolution
  rw [hlen, isCreateAt_congr ops ops' h]

theorem applyLoop_applied_valid (fromiso : String → Option PyDateTime) :
    ∀ (rs : List ResolutionOption) (st : List MutationOp × List ResolutionOption)
      (r : ResolutionOption), r ∈ (rs.foldl (applyStep fromiso) st).2 →
      r ∈ st.2 ∨ validResolution fromiso st.1 r = true := by
  intro rs
  induction rs with
  | nil => intro st r h; exact Or.inl h
  | cons res rest ih =>
    intro st r h
    rw [List.foldl_cons] at h
    rcases ih (applyStep fromiso st res) r h with hmem | hval
    · rcases applyStep_cases fromiso st res with heq |
        ⟨idx, ev, fs, fe, rr, s, e, hidx, hget, hs, he, heq⟩
      · rw [heq] at hmem; exact Or.inl hmem
      · rw [heq] at hmem
        rcases List.mem_append.mp hmem with h1 | h1
        · exact Or.inl h1
        · right
          have hr : r = res := by simpa using h1
          subst hr
          have hlt : idx < st.1.length := (List.getElem?_eq_some.mp hget).1
          simp only [validResolution, Bool.and_eq_true, decide_eq_true_eq]
          refine ⟨⟨⟨⟨by rw [hidx]; omega, by rw [hidx]; exact_mod_cast hlt⟩, ?_⟩, ?_⟩, ?_⟩
          · unfold isCreateAt
            have : r.operation_index.toNat = idx := by
              rw [hidx]; exact Int.toNat_natCast idx
            rw [this, hget]
          · rw [hs]; rfl
          · rw [he]; rfl
    · right
      rwa [validResolution_congr fromiso _ _ (applyStep_fst_eraseTimes fromiso st res) r]
        at hval

theorem applyLoop_frame (fromiso : String → Option PyDateTime) :
    ∀ (rs : List ResolutionOption) (st : List MutationOp × List ResolutionOption) (i : Nat),
      (rs.foldl (applyStep fromiso) st).1[i]? ≠ st.1[i]? →
      ∃ r ∈ (rs.foldl (applyStep fromiso) st).2, r.operation_index = (i : Int) := by
  intro rs
  induction rs with
  | nil => intro st i h; exact absurd rfl h
  | cons res rest ih =>
    intro st i h
    rw [List.foldl_cons] at h ⊢
    by_cases hmid :
        (rest.foldl (applyStep fromiso) (applyStep fromiso st res)).1[i]?
          = (applyStep fromiso st res).1[i]?
    · have hstep : (applyStep fromiso st res).1[i]? ≠ st.1[i]? := by
        rw [← hmid]; exact h
      rcases applyStep_cases fromiso st res with heq |
        ⟨idx, ev, fs, fe, rr, s, e, hidx, hget, hs, he, heq⟩
      · rw [heq] at hstep; exact absurd rfl hstep
      · rw [heq] at hstep
        by_cases hii : idx = i
        · subst hii
          refine ⟨res, ?_, hidx⟩
          apply applyLoop_snd_mono
          rw [heq]
          exact List.mem_append_right _ (List.mem_singleton.mpr rfl)
        · exact absurd (List.getElem?_set_ne hii) hstep
    · exact ih (applyStep fromiso st res) i hmid

/-- C1: the overlap test used by the Conflict Detector (`_events_overlap`)
and by the Negotiator's free-slot filter (`negOverlapCheck` inside `is_free`)
returns true iff `max(startA, startB) < min(endA, endB)`; it is symmetric,
intervals that merely touch (`A.end = B.start`) are never flagged, and the
two stages use the same test. -/
theorem overlap_test_correct (a_start a_end b_start b_end : Int) :
    (_events_overlap a_start a_end b_start b_end = true ↔
      max a_start b_start < min a_end b_end)
    ∧ _events_overlap a_start a_end b_start b_end =
        _events_overlap b_start b_end a_start a_end
    ∧ (a_end = b_start → _events_overlap a_start a_end b_start b_end = false)
    ∧ negOverlapCheck a_start a_end b_start b_end =
        _events_overlap a_start a_end b_start b_end := by
  refine ⟨?_, ?_, ?_, rfl⟩
  · simp [_events_overlap]
  · simp only [_events_overlap]
    rw [max_comm, min_comm]
  · intro h
    subst h
    simp only [_events_overlap, decide_eq_false_iff_not, not_lt]
    exact le_trans (min_le_left _ _) (le_max_right _ _)

/-- Witness for C1 at the touching pair `[09:00, 10:00)` / `[10:00, 11:00)`
(in minutes of the day): touching intervals are not flagged. -/
theorem overlap_test_correct_witness :
    _events_overlap 540 600 600 660 = false :=
  (overlap_test_correct 540 600 600 660).2.2.1 rfl

/-- C2: the Conflict Detector's report lists, before the planned-vs-existing
conflicts, exactly one `overlap` Conflict per unordered pair of overlapping
planned first-occurrence intervals (each pair independently, no dedup or
merge; `allPairs` enumerates each unordered pair once — `choose 2` many), each
carrying both titles; `blocking` is true iff the conflict list is non-empty.
The spec's example (two planned events `wed 09:00–10:00` and `wed 09:30–10:30`)
yields exactly one Conflict referencing both titles, and three mutually
overlapping events yield three separate Conflicts. -/
theorem conflict_report_correct (plan : MutationPlan) (semester : SemesterWindow)
    (fetchExisting : Int → Int → List ExistingEvent) :
    ((run_conflict_agent plan semester fetchExisting).conflicts =
        (((allPairs (_planned_occurrences plan semester)).filter fun p =>
            _events_overlap p.1.start p.1.stop p.2.start p.2.stop).map
          fun p => mkPairConflict p.1 p.2)
        ++ existingLoop fetchExisting (_planned_occurrences plan semester))
    ∧ (∀ a b : PlannedOcc, (mkPairConflict a b).type = ConflictType.overlap
        ∧ (mkPairConflict a b).affected = [a.title, b.title])
    ∧ (allPairs (_planned_occurrences plan semester)).length =
        (_planned_occurrences plan semester).length.choose 2
    ∧ ((run_conflict_agent plan semester fetchExisting).blocking = true ↔
        (run_conflict_agent plan semester fetchExisting).conflicts ≠ [])
    ∧ (run_conflict_agent examplePlan2 exampleSemester fun _ _ => []).conflicts.length = 1
    ∧ ((run_conflict_agent examplePlan2 exampleSemester fun _ _ => []).conflicts.map
        Conflict.affected) = [["Algebra", "Physics"]]
    ∧ ((run_conflict_agent examplePlan2 exampleSemester fun _ _ => []).conflicts.map
        Conflict.type) = [ConflictType.overlap]
    ∧ (run_conflict_agent examplePlan3 exampleSemester fun _ _ => []).conflicts.length = 3 := by
  refine ⟨?_, fun a b => ⟨rfl, rfl⟩, allPairs_length _, ?_, by decide, by decide, by decide,
    by decide⟩
  · simp only [run_conflict_agent]
    rw [pairwiseLoop_eq_filter]
  · simp only [run_conflict_agent]
    cases pairwiseLoop (_planned_occurrences plan semester) ++
        existingLoop fetchExisting (_planned_occurrences plan semester) <;> simp

/-- Witness for C2 at the spec's two-event example: the report is blocking. -/
theorem conflict_report_correct_witness :
    (run_conflict_agent examplePlan2 exampleSemester fun _ _ => []).conflicts ≠ [] :=
  ((conflict_report_correct examplePlan2 exampleSemester fun _ _ => []).2.2.2.1).mp
    (by decide)

/-- C3: `_first_occurrence_date` returns the first calendar date on/after
`semester_start` whose weekday equals the target day (0 to 6 days forward);
concretely, for `day_of_week = wed` and `semester_start` 2025-01-06 (a
Monday), the first occurrence is 2025-01-08. -/
theorem first_occurrence_correct (semester_start : Int) (target_dow : DayOfWeek) :
    (semester_start ≤ _first_occurrence_date semester_start target_dow
      ∧ _first_occurrence_date semester_start target_dow < semester_start + 7
      ∧ pyWeekday (_first_occurrence_date semester_start target_dow) = dow_map target_dow
      ∧ ∀ x : Int, semester_start ≤ x →
          x < _first_occurrence_date semester_start target_dow →
          pyWeekday x ≠ dow_map target_dow)
    ∧ _first_occurrence_date (dateToDay ⟨2025, 1, 6⟩) DayOfWeek.wed = dateToDay ⟨2025, 1, 8⟩
    ∧ pyWeekday (dateToDay ⟨2025, 1, 6⟩) = dow_map DayOfWeek.mon := by
  refine ⟨⟨?_, ?_, ?_, ?_⟩, by decide, by decide⟩
  · cases target_dow <;>
      simp only [_first_occurrence_date, pyWeekday, dow_map] <;> omega
  · cases target_dow <;>
      simp only [_first_occurrence_date, pyWeekday, dow_map] <;> omega
  · cases target_dow <;>
      simp only [_first_occurrence_date, pyWeekday, dow_map] <;> omega
  · intro x h1 h2
    cases target_dow <;>
      simp only [_first_occurrence_date, pyWeekday, dow_map] at h2 ⊢ <;> omega

/-- Witness for C3: 2025-01-07 lies strictly between 2025-01-06 and the
computed first Wednesday occurrence, so its weekday is not Wednesday. -/
theorem first_occurrence_correct_witness :
    pyWeekday (dateToDay ⟨2025, 1, 7⟩) ≠ dow_map DayOfWeek.wed :=
  (first_occurrence_correct (dateToDay ⟨2025, 1, 6⟩) DayOfWeek.wed).1.2.2.2
    (dateToDay ⟨2025, 1, 7⟩) (by decide) (by decide)

/-- C4 is a code bug, evaluated here at a failing input.  For the Monday
event `monClass` on today = 2025-01-06 (day 20094, a Monday) the original
occurrence starts at instant 28935900 (Mon 09:00).  With no busy blocks and a
`±1 day / 360-minute step` grid, `_filter_free_slots` gives the slot at the
original start the score `-86400` instead of `0`, gives the slot one whole
day *before* the original start the score `0`, and ranks that farther slot
first: the score is `-abs(start - candidates[0].start)` (distance from the
earliest grid slot), not `-abs(start - original start)` as the claim, the
spec, and the code's own `closer to original start is better` comment state. -/
theorem slot_score_origin_bug :
    atTime (_next_occurrence 20094 monClass) monClass.start_time = 28935900
    ∧ (_candidate_slots 20094 monClass 1 360).head? = some (28934460, 28934520)
    ∧ (28935900, 28935960) ∈ _candidate_slots 20094 monClass 1 360
    ∧ (∃ s ∈ _filter_free_slots (_candidate_slots 20094 monClass 1 360) [],
        s.start_iso = 28935900 ∧ s.score = some (-86400))
    ∧ (∃ s ∈ _filter_free_slots (_candidate_slots 20094 monClass 1 360) [],
        s.start_iso = 28934460 ∧ s.score = some 0)
    ∧ ((_filter_free_slots (_candidate_slots 20094 monClass 1 360) []).head?.map
        AlternativeSlot.start_iso) = some 28934460 := by
  decide

/-- C5 is a code bug, evaluated here at a failing input.  `_next_occurrence`
looks up `str(event.day_of_week)` — which for the `(str, Enum)` mixin is the
qualified member name `"DayOfWeek.wed"`, not the value `"wed"` — in the
`mon..sun` map, always misses, and defaults to Monday (`0`).  For the
Wednesday event `wedClass` and today = 2025-01-06 (day 20094, a Monday) the
candidate grid is therefore anchored at Monday 2025-01-06 rather than at the
event's next natural occurrence, Wednesday 2025-01-08 (day 20096, correctly
computed by the Conflict Detector's `_first_occurrence_date`): the first
default-parameter candidate is `Mon 2024-12-30 09:00`, not `Wed 2025-01-01
09:00`. -/
theorem candidate_anchor_bug :
    strOfDayOfWeek DayOfWeek.wed = "DayOfWeek.wed"
    ∧ dow_map_get "DayOfWeek.wed" = 0
    ∧ dow_map_get "wed" = 2
    ∧ _next_occurrence 20094 wedClass = 20094
    ∧ _first_occurrence_date 20094 DayOfWeek.wed = 20096
    ∧ pyWeekday 20094 = dow_map DayOfWeek.mon
    ∧ pyWeekday 20096 = dow_map DayOfWeek.wed
    ∧ (_candidate_slots 20094 wedClass).head? =
        some (atTime (20094 - 7) ⟨9, 0⟩, atTime (20094 - 7) ⟨10, 0⟩)
    ∧ (_candidate_slots 20094 wedClass).head? ≠
        some (atTime (20096 - 7) ⟨9, 0⟩, atTime (20096 - 7) ⟨10, 0⟩) := by
  decide

theorem mem_plannedAux (sd : Int) :
    ∀ (ops : List MutationOp) (n : Nat) (p : PlannedOcc),
      p ∈ plannedAux sd n ops ↔
      ∃ (k : Nat) (ev : ScheduleEvent) (fs fe rr : String),
        ops[k]? = some (MutationOp.create_recurring ev fs fe rr)
        ∧ p = mkPlannedOcc sd (n + k) ev := by
  intro ops
  induction ops with
  | nil => intro n p; simp [plannedAux]
  | cons op rest ih =>
    intro n p
    cases op with
    | create_recurring ev fs fe rr =>
      simp only [plannedAux, List.mem_cons, ih (n + 1)]
      constructor
      · rintro (rfl | ⟨k, ev', fs', fe', rr', hk, rfl⟩)
        · exact ⟨0, ev, fs, fe, rr, by simp, by rw [Nat.add_zero]⟩
        · refine ⟨k + 1, ev', fs', fe', rr', by simpa using hk, ?_⟩
          have : n + (k + 1) = n + 1 + k := by omega
          rw [this]
      · rintro ⟨k, ev', fs', fe', rr', hk, rfl⟩
        cases k with
        | zero =>
          left
          simp only [List.getElem?_cons_zero, Option.some.injEq,
            MutationOp.create_recurring.injEq] at hk
          rw [Nat.add_zero, hk.1]
        | succ j =>
          right
          refine ⟨j, ev', fs', fe', rr', by simpa using hk, ?_⟩
          have : n + (j + 1) = n + 1 + j := by omega
          rw [this]
    | update gid patch =>
      simp only [plannedAux, ih (n + 1)]
      constructor
      · rintro ⟨k, ev', fs', fe', rr', hk, rfl⟩
        refine ⟨k + 1, ev', fs', fe', rr', by simpa using hk, ?_⟩
        have : n + (k + 1) = n + 1 + k := by omega
        rw [this]
      · rintro ⟨k, ev', fs', fe', rr', hk, rfl⟩
        cases k with
        | zero => simp at hk
        | succ j =>
          refine ⟨j, ev', fs', fe', rr', by simpa using hk, ?_⟩
          have : n + (j + 1) = n + 1 + j := by omega
          rw [this]
    | delete gid =>
      simp only [plannedAux, ih (n + 1)]
      constructor
      · rintro ⟨k, ev', fs', fe', rr', hk, rfl⟩
        refine ⟨k + 1, ev', fs', fe', rr', by simpa using hk, ?_⟩
        have : n + (k + 1) = n + 1 + k := by omega
        rw [this]
      · rintro ⟨k, ev', fs', fe', rr', hk, rfl⟩
        cases k with
        | zero => simp at hk
        | succ j =>
          refine ⟨j, ev', fs', fe', rr', by simpa using hk, ?_⟩
          have : n + (j + 1) = n + 1 + j := by omega
          rw [this]

theorem executorLoop_length (dispatch : Nat → MutationOp → DispatchResult) :
    ∀ (ops : List MutationOp) (n : Nat), (executorLoop dispatch n ops).length = ops.length := by
  intro ops
  induction ops with
  | nil => intro n; rfl
  | cons op rest ih => intro n; simp [executorLoop, ih (n + 1)]

theorem executorLoop_getElem? (dispatch : Nat → MutationOp → DispatchResult) :
    ∀ (ops : List MutationOp) (n i : Nat),
      (executorLoop dispatch n ops)[i]? =
        ops[i]?.map fun op => mkExecResult (n + i) op (dispatch (n + i) op) := by
  intro ops
  induction ops with
  | nil => intro n i; rfl
  | cons op rest ih =>
    intro n i
    cases i with
    | zero => simp [executorLoop]
    | succ j =>
      have hn : n + (j + 1) = (n + 1) + j := by omega
      simp only [executorLoop, List.getElem?_cons_succ, ih (n + 1) j, hn]

theorem executorLoop_counts (dispatch : Nat → MutationOp → DispatchResult) :
    ∀ (ops : List MutationOp) (n : Nat),
      ((executorLoop dispatch n ops).filter fun r => r.status = ExecStatus.success).length +
        ((executorLoop dispatch n ops).filter fun r => r.status = ExecStatus.failed).length
        = ops.length := by
  intro ops
  induction ops with
  | nil => intro n; rfl
  | cons op rest ih =>
    intro n
    have h := ih (n + 1)
    cases hd : dispatch n op <;>
      simp [executorLoop, hd, mkExecResult, List.filter] <;> omega

/-- C6: `apply_resolutions_tool` is total (the model is a function, so an
outcome is always produced) and ignores invalid resolutions: any resolution
with an out-of-range `operation_index`, or addressing an operation that is
not `create_recurring`, or whose suggested start/end does not parse, is never
recorded in `applied_resolutions`, and its loop step leaves the running state
completely untouched rather than failing; the updated plan always keeps one
operation per input operation, whatever the resolution input. -/
theorem apply_resolutions_ignores_invalid (fromiso : String → Option PyDateTime)
    (plan : MutationPlan) (resolutions : List ResolutionOption) (r : ResolutionOption) :
    (validResolution fromiso plan.operations r = false →
      r ∉ (apply_resolutions_tool fromiso plan resolutions).applied_resolutions)
    ∧ (∀ st : List MutationOp × List ResolutionOption,
        validResolution fromiso st.1 r = false → applyStep fromiso st r = st)
    ∧ (apply_resolutions_tool fromiso plan resolutions).updated_plan.operations.length
        = plan.operations.length := by
  refine ⟨?_, ?_, ?_⟩
  · intro hval hmem
    have hmem' : r ∈ (resolutions.foldl (applyStep fromiso) (plan.operations, [])).2 := hmem
    rcases applyLoop_applied_valid fromiso resolutions (plan.operations, []) r hmem' with h | h
    · simp at h
    · rw [h] at hval; cases hval
  · intro st hval
    rcases applyStep_cases fromiso st r with heq |
      ⟨idx, ev, fs, fe, rr, s, e, hidx, hget, hs, he, _⟩
    · exact heq
    · rw [applyStep_data_valid fromiso st r idx ev fs fe rr s e hidx hget hs he] at hval
      cases hval
  · have h := applyLoop_fst_eraseTimes fromiso resolutions (plan.operations, [])
    have := congrArg List.length h
    simpa using this

/-- Witness for C6: an out-of-range resolution (index 5 of a 3-operation
plan) is ignored and excluded from `applied_resolutions`. -/
theorem apply_resolutions_ignores_invalid_witness :
    resolutionOutOfRange ∉ (apply_resolutions_tool fromisoTable examplePlanMixed
      [resolutionOutOfRange, resolutionWrongKind, resolutionUnparsable]).applied_resolutions :=
  (apply_resolutions_ignores_invalid fromisoTable examplePlanMixed
    [resolutionOutOfRange, resolutionWrongKind, resolutionUnparsable]
    resolutionOutOfRange).1 (by decide)

/-- C7: `apply_resolutions_tool` carries over unchanged (all fields equal)
every operation whose index is not referenced by any applied resolution, and
never changes the plan's `preview` or `requires_confirmation`. -/
theorem apply_resolutions_frame (fromiso : String → Option PyDateTime)
    (plan : MutationPlan) (resolutions : List ResolutionOption) :
    (apply_resolutions_tool fromiso plan resolutions).updated_plan.preview = plan.preview
    ∧ (apply_resolutions_tool fromiso plan resolutions).updated_plan.requires_confirmation
        = plan.requires_confirmation
    ∧ ∀ i : Nat,
        (∀ r ∈ (apply_resolutions_tool fromiso plan resolutions).applied_resolutions,
          r.operation_index ≠ (i : Int)) →
        (apply_resolutions_tool fromiso plan resolutions).updated_plan.operations[i]?
          = plan.operations[i]? := by
  refine ⟨rfl, rfl, fun i hnone => ?_⟩
  by_contra hne
  have hne' : (resolutions.foldl (applyStep fromiso) (plan.operations, [])).1[i]?
      ≠ (plan.operations, ([] : List ResolutionOption)).1[i]? := hne
  obtain ⟨r, hr, hidx⟩ := applyLoop_frame fromiso resolutions (plan.operations, []) i hne'
  exact hnone r hr hidx

/-- Witness for C7: applying the (valid) resolution targeting operation 1 of
the mixed plan leaves operations 0 and 2 (and the preview and flag) as they
were. -/
theorem apply_resolutions_frame_witness :
    (apply_resolutions_tool fromisoTable examplePlanMixed [resolutionOk]).updated_plan.operations[0]?
      = examplePlanMixed.operations[0]? :=
  (apply_resolutions_frame fromisoTable examplePlanMixed [resolutionOk]).2.2 0 (by decide)

/-- C8 (modelled from the spec, see `run_executor_agent`): the report has one
ExecutionResult per input operation, in input order with matching `op_index`;
`total_ops` is the number of operations, `executed_ops`/`failed_ops` count the
`success`/`failed` results and always sum to `total_ops` (a failure never
prevents the rest from being attempted and recorded: every operation's result
is present and determined by dispatching that operation alone).  In the
spec's example — a 3-operation plan whose second operation raises a remote
error — the counts are 3/2/1 and the results stay in input order. -/
theorem executor_report_correct (dispatch : Nat → MutationOp → DispatchResult)
    (plan : MutationPlan) :
    (run_executor_agent dispatch plan).total_ops = plan.operations.length
    ∧ (run_executor_agent dispatch plan).results.length = plan.operations.length
    ∧ (∀ (i : Nat) (op : MutationOp), plan.operations[i]? = some op →
        (run_executor_agent dispatch plan).results[i]? =
          some (mkExecResult i op (dispatch i op)))
    ∧ (∀ (i : Nat) (r : ExecutionResult),
        (run_executor_agent dispatch plan).results[i]? = some r → r.op_index = i)
    ∧ (run_executor_agent dispatch plan).executed_ops =
        ((run_executor_agent dispatch plan).results.filter
          fun r => r.status = ExecStatus.success).length
    ∧ (run_executor_agent dispatch plan).failed_ops =
        ((run_executor_agent dispatch plan).results.filter
          fun r => r.status = ExecStatus.failed).length
    ∧ (run_executor_agent dispatch plan).executed_ops
        + (run_executor_agent dispatch plan).failed_ops
        = (run_executor_agent dispatch plan).total_ops
    ∧ (run_executor_agent execExampleDispatch execExamplePlan).total_ops = 3
    ∧ (run_executor_agent execExampleDispatch execExamplePlan).executed_ops = 2
    ∧ (run_executor_agent execExampleDispatch execExamplePlan).failed_ops = 1
    ∧ ((run_executor_agent execExampleDispatch execExamplePlan).results.map
        ExecutionResult.op_index) = [0, 1, 2] := by
  refine ⟨rfl, executorLoop_length dispatch plan.operations 0, ?_, ?_, rfl, rfl,
    executorLoop_counts dispatch plan.operations 0, by decide, by decide, by decide, by decide⟩
  · intro i op hop
    have h := executorLoop_getElem? dispatch plan.operations 0 i
    rw [hop] at h
    simpa using h
  · intro i r hr
    have h := executorLoop_getElem? dispatch plan.operations 0 i
    have hr' : (executorLoop dispatch 0 plan.operations)[i]? = some r := hr
    rw [hr'] at h
    rcases hop : plan.operations[i]? with _ | op
    · rw [hop] at h; simp at h
    · rw [hop] at h
      simp only [Option.map_some', Option.some.injEq] at h
      rw [h]
      cases hd : dispatch (0 + i) op <;> simp [mkExecResult]

/-- Witness for C8: the failing second operation of the example plan still
yields its own in-place result. -/
theorem executor_report_correct_witness :
    (run_executor_agent execExampleDispatch execExamplePlan).results[1]? =
      some (mkExecResult 1 (MutationOp.update "gid-1" [("summary", "Renamed")])
        (execExampleDispatch 1 (MutationOp.update "gid-1" [("summary", "Renamed")]))) :=
  (executor_report_correct execExampleDispatch execExamplePlan).2.2.1 1
    (MutationOp.update "gid-1" [("summary", "Renamed")]) (by decide)

/-- C9: operation indices are stable across stages.  The Conflict Detector
labels each planned occurrence with the operation's original position in the
plan — every planned occurrence points back to the `create_recurring` op at
its `index` in the original list, and conversely every `create_recurring` op
appears with exactly its original position, update/delete ops being skipped
without renumbering — and the Negotiator resolves a ResolutionOption's
`operation_index` against the full original operation list. -/
theorem operation_indices_stable :
    (∀ (plan : MutationPlan) (semester : SemesterWindow) (p : PlannedOcc),
        p ∈ _planned_occurrences plan semester →
        p.title = p.event.title
        ∧ ∃ fs fe rr, plan.operations[p.index]? =
            some (MutationOp.create_recurring p.event fs fe rr))
    ∧ (∀ (plan : MutationPlan) (semester : SemesterWindow) (i : Nat)
        (ev : ScheduleEvent) (fs fe rr : String),
        plan.operations[i]? = some (MutationOp.create_recurring ev fs fe rr) →
        ∃ p ∈ _planned_occurrences plan semester, p.index = i ∧ p.event = ev)
    ∧ (∀ (fromiso : String → Option PyDateTime) (plan : MutationPlan)
        (resolutions : List ResolutionOption) (r : ResolutionOption),
        r ∈ (apply_resolutions_tool fromiso plan resolutions).applied_resolutions →
        0 ≤ r.operation_index
        ∧ r.operation_index < (plan.operations.length : Int)
        ∧ isCreateAt plan.operations r.operation_index = true) := by
  refine ⟨?_, ?_, ?_⟩
  · intro plan semester p hp
    obtain ⟨k, ev, fs, fe, rr, hk, rfl⟩ :=
      (mem_plannedAux (dateToDay semester.semester_start) plan.operations 0 p).mp hp
    exact ⟨rfl, fs, fe, rr, by simpa using hk⟩
  · intro plan semester i ev fs fe rr h
    exact ⟨mkPlannedOcc (dateToDay semester.semester_start) i ev,
      (mem_plannedAux (dateToDay semester.semester_start) plan.operations 0 _).mpr
        ⟨i, ev, fs, fe, rr, h, by rw [Nat.zero_add]⟩, rfl, rfl⟩
  · intro fromiso plan resolutions r hr
    have hr' : r ∈ (resolutions.foldl (applyStep fromiso) (plan.operations, [])).2 := hr
    rcases applyLoop_applied_valid fromiso resolutions (plan.operations, []) r hr' with h | h
    · simp at h
    · simp only [validResolution, Bool.and_eq_true, decide_eq_true_eq] at h
      exact ⟨h.1.1.1.1, h.1.1.1.2, h.1.1.2⟩

/-- Witness for C9: in the mixed plan (update at 0, create at 1, delete
at 2) the single planned occurrence keeps index 1 — the skipped update op is
not renumbered away. -/
theorem operation_indices_stable_witness :
    ∃ p ∈ _planned_occurrences examplePlanMixed exampleSemester,
      p.index = 1 ∧ p.event = wedClass :=
  operation_indices_stable.2.1 examplePlanMixed exampleSemester 1 wedClass
    "2025-01-08T09:00" "2025-01-08T10:00" "RRULE" (by decide)

/-- C10: an applied resolution rewrites only the targeted event's
`start_time`/`end_time`, set to the wall-clock HH:MM of the parsed suggested
instants (`updTimes`/`strftimeHM`); erasing clock times, the operation list is
unchanged — so `day_of_week`, `first_start_iso`, `first_end_iso`, `rrule` and
every other field survive, and a suggested slot on a different calendar day
changes only the clock time; and the outcome's `unresolved_conflicts` is
always empty. -/
theorem apply_resolutions_rewrites_times_only (fromiso : String → Option PyDateTime)
    (plan : MutationPlan) (resolutions : List ResolutionOption) :
    (apply_resolutions_tool fromiso plan resolutions).unresolved_conflicts = []
    ∧ (apply_resolutions_tool fromiso plan resolutions).updated_plan.operations.map eraseTimes
        = plan.operations.map eraseTimes
    ∧ ∀ (st : List MutationOp × List ResolutionOption) (res : ResolutionOption)
        (idx : Nat) (ev : ScheduleEvent) (fs fe rr : String) (start_dt end_dt : PyDateTime),
        res.operation_index = (idx : Int) →
        st.1[idx]? = some (MutationOp.create_recurring ev fs fe rr) →
        fromiso res.suggested_start_iso = some start_dt →
        fromiso res.suggested_end_iso = some end_dt →
        applyStep fromiso st res =
          (st.1.set idx
            (MutationOp.create_recurring (updTimes ev start_dt end_dt) fs fe rr),
           st.2 ++ [res]) := by
  refine ⟨rfl, applyLoop_fst_eraseTimes fromiso resolutions (plan.operations, []),
    fun st res idx ev fs fe rr start_dt end_dt hidx hget hs he =>
      applyStep_applies fromiso st res idx ev fs fe rr start_dt end_dt hidx hget hs he⟩

/-- Witness for C10: the resolution moving the create op of the mixed plan to
Thursday 2025-01-09 11:00–12:00 rewrites exactly that op's clock times to
11:00/12:00, keeps `day_of_week = wed` and the ISO/rrule fields, and is
recorded. -/
theorem apply_resolutions_rewrites_times_only_witness :
    applyStep fromisoTable (examplePlanMixed.operations, []) resolutionOk =
      (examplePlanMixed.operations.set 1
        (MutationOp.create_recurring (updTimes wedClass ⟨20097, 11, 0⟩ ⟨20097, 12, 0⟩)
          "2025-01-08T09:00" "2025-01-08T10:00" "RRULE"),
       [resolutionOk]) :=
  (apply_resolutions_rewrites_times_only fromisoTable
      { operations := [], preview := "", requires_confirmation := true } []).2.2
    (examplePlanMixed.operations, []) resolutionOk 1 wedClass
    "2025-01-08T09:00" "2025-01-08T10:00" "RRULE" ⟨20097, 11, 0⟩ ⟨20097, 12, 0⟩
    (by decide) (by decide) (by decide) (by decide)

end SchedulingAgent
